import Mathlib

/-!
Verification development for the vidyaAI multi-language chatbot repository.

Shallow embedding of the components the claims concern:
* `CitationService.extract_citations` (src/services/citation_service.py)
* `RetrievalTool.format_documents` (src/tools/retrieval_tool.py)
* the document filter / citation construction of `RetrieveDocumentsNode`
  (src/nodes/retrieve_documents.py)
* the ReAct reasoning loop (src/agents/react_agent.py) and the
  fallback handling of `StudentAgent.__call__` (src/agents/student_agent.py)
* session-restart detection and duplicate suppression of `MemoryService`
  (src/services/chat_memory.py)
* the validation/correction routing (src/graph.py,
  src/nodes/groundedness_check.py)
* the metadata filter normalisation of `RetrieverService.retrieve`
  (src/services/retriever.py)

Machine reals (Python floats) are modelled as exact unnormalised fractions
(`PyFloat`); every concrete score in the development is an exact multiple of
1/100, where float and rational comparison and two-decimal formatting agree.
Python strings are modelled as
Lean `String`, with the handful of Python string primitives the source uses
(`split`, `strip`, `startswith`, `in`) re-implemented structurally over the
character list so that every definition evaluates inside the kernel.
-/

namespace VidyaAI

/-! ## Python string primitives -/

/-- One splitting step over character lists: `splitListAux sep fuel cs acc`
scans `cs` left to right for the (non-empty) separator `sep`, exactly like
Python `str.split(sep)`.  `fuel` only drives structural termination; it is
always called with `fuel > length cs`, so the fuel-exhausted branch is
unreachable. -/
def splitListAux (sep : List Char) : Nat → List Char → List Char → List (List Char)
  | 0, cs, acc => [acc.reverse ++ cs]
  | fuel + 1, cs, acc =>
    if sep.isPrefixOf cs ∧ sep ≠ [] then
      acc.reverse :: splitListAux sep fuel (cs.drop sep.length) []
    else
      match cs with
      | [] => [acc.reverse]
      | c :: cs' => splitListAux sep fuel cs' (c :: acc)

/-- Python `s.split(sep)` for a non-empty separator. -/
def pySplit (sep : String) (s : String) : List String :=
  (splitListAux sep.toList (s.toList.length + 1) s.toList []).map fun cs => String.mk cs

/-- Python `s.strip()` (ASCII whitespace suffices for the strings in play). -/
def pyStrip (s : String) : String :=
  String.mk (((s.toList.dropWhile Char.isWhitespace).reverse.dropWhile Char.isWhitespace).reverse)

/-- Substring test over character lists (Python `pat in s`). -/
def listContainsSub (pat : List Char) : List Char → Bool
  | [] => pat.isEmpty
  | c :: cs => pat.isPrefixOf (c :: cs) || listContainsSub pat cs

/-- Python `pat in s`. -/
def strContains (s pat : String) : Bool :=
  listContainsSub pat.toList s.toList

/-- Python `s.startswith(pre)`. -/
def pyStartswith (s pre : String) : Bool :=
  pre.toList.isPrefixOf s.toList

/-- Digits of a base-10 numeral to a natural number. -/
def digitsToNat (cs : List Char) : Nat :=
  cs.foldl (fun n c => n * 10 + (c.toNat - '0'.toNat)) 0

/-- Optional exponent suffix of a Python float literal (`e`/`E`, sign, digits);
`none` on a malformed suffix. -/
def pyFloatExp : List Char → Option Int
  | [] => some 0
  | c :: t =>
    if c = 'e' ∨ c = 'E' then
      let (sgn, t') : Int × List Char :=
        match t with
        | '+' :: r => (1, r)
        | '-' :: r => (-1, r)
        | r => (1, r)
      let ds := t'.takeWhile Char.isDigit
      if ds = [] ∨ t'.dropWhile Char.isDigit ≠ [] then none
      else some (sgn * (digitsToNat ds : Int))
    else none

/-- Exact model of the Python floats the repository manipulates: an
unnormalised fraction `num / den`.  Every float in play (relevance scores,
score thresholds) is an exact decimal with at most a few digits, for which
binary floating point arithmetic, comparison and two-decimal formatting agree
with exact rational arithmetic; the unnormalised representation keeps every
operation kernel-computable. -/
structure PyFloat where
  num : Int
  den : Nat
  deriving DecidableEq, Repr

/-- Python `a <= b` on floats (denominators produced by this development are
always positive powers of ten). -/
def PyFloat.le (a b : PyFloat) : Bool :=
  a.num * (b.den : Int) ≤ b.num * (a.den : Int)

/-- The rational value of a modelled float. -/
def PyFloat.toRat (a : PyFloat) : Rat :=
  (a.num : Rat) / (a.den : Rat)

/-- Python `float(s)` on an already-stripped string, for the plain decimal
grammar `[sign] (digits [. digits] | . digits) [exp]` (the source only ever
feeds it strings of this shape; `inf`/`nan`/underscores are not modelled).
`none` models the `ValueError` branch. -/
def pyFloat? (s : String) : Option PyFloat :=
  let cs := s.toList
  let (sgn, cs) : Int × List Char :=
    match cs with
    | '+' :: t => (1, t)
    | '-' :: t => (-1, t)
    | t => (1, t)
  let ip := cs.takeWhile Char.isDigit
  let rest := cs.dropWhile Char.isDigit
  let (fp, rest') : List Char × List Char :=
    match rest with
    | '.' :: t => (t.takeWhile Char.isDigit, t.dropWhile Char.isDigit)
    | t => ([], t)
  if ip = [] ∧ fp = [] then none
  else if rest ≠ [] ∧ rest.head? ≠ some '.' ∧ rest.head? ≠ some 'e' ∧ rest.head? ≠ some 'E' then
    none
  else
    match pyFloatExp rest' with
    | none => none
    | some e =>
      let m : Int := sgn * (digitsToNat (ip ++ fp) : Int)
      if 0 ≤ e then some ⟨m * 10 ^ e.toNat, 10 ^ fp.length⟩
      else some ⟨m, 10 ^ fp.length * 10 ^ (-e).toNat⟩

/-- Python `f"{x:.2f}"`.  Rounds half-up over the integers; this coincides
with float formatting for every value that is an exact multiple of 1/100
(ties cannot arise there), which covers all scores in the repository. -/
def fmt2 (a : PyFloat) : String :=
  let body : Int → Nat → String := fun num den =>
    let n : Nat := ((num * 200 + (den : Int)) / (2 * (den : Int))).toNat
    toString (n / 100) ++ "." ++ (if n % 100 < 10 then "0" else "") ++ toString (n % 100)
  if a.num < 0 then "-" ++ body (-a.num) a.den else body a.num a.den

/-! ## CitationService (src/services/citation_service.py)

`extract_citations` scans the reasoning chain's `retrieve_documents`
observations line by line, accumulating a `current_doc` dictionary and
appending it to the citation list each time a new `[Score: ...]` header is
seen (and once more at the end), then de-duplicates by `lecture_id`. -/

/-- The `current_doc` dictionary; `none` models an absent key. -/
structure ParsedDoc where
  score : Option PyFloat := none
  lecture_id : Option String := none
  transcript_id : Option String := none
  chunk_id : Option String := none
  subject_id : Option String := none
  topics : Option String := none
  chapter : Option String := none
  class_name : Option String := none
  class_id : Option String := none
  teacher_name : Option String := none
  teacher_id : Option String := none
  subject : Option String := none
  deriving DecidableEq, Repr

/-- A citation dictionary `{"id": ..., "score": ..., **current_doc}`. -/
structure Citation where
  id : String
  score : PyFloat
  doc : ParsedDoc
  deriving DecidableEq, Repr

/-- `current_doc.get("score", 0.0)`. -/
def ParsedDoc.getScore (d : ParsedDoc) : PyFloat :=
  d.score.getD ⟨0, 1⟩

/-- `{"id": f"doc_{current_doc.get('lecture_id', 'unknown')}", "score": ..., **current_doc}`. -/
def mkCitation (d : ParsedDoc) : Citation :=
  { id := "doc_" ++ d.lecture_id.getD "unknown", score := d.getScore, doc := d }

/-- The save-document block: append `current_doc` when it has a `lecture_id`
(a dictionary with the key is in particular non-empty, so the Python guard
`current_doc and "lecture_id" in current_doc` reduces to key presence) and
its score clears `min_score`. -/
def flushDoc (minScore : PyFloat) (d : ParsedDoc) (acc : List Citation) : List Citation :=
  if d.lecture_id.isSome then
    if PyFloat.le minScore d.getScore then acc ++ [mkCitation d] else acc
  else acc

/-- `line.split(":", 1)[1].strip()` (callers guard with `startswith`, so a
colon is always present). -/
def valAfterColon (line : String) : String :=
  pyStrip (String.intercalate ":" (pySplit ":" line).tail)

/-- `float(line.split("Score:")[1].split("]")[0].strip())`, with the
`except (ValueError, IndexError)` branch yielding `0.0`. -/
def scoreFromLine (line : String) : PyFloat :=
  match pyFloat? (pyStrip (((pySplit "]" ((pySplit "Score:" line).getD 1 "")).getD 0 ""))) with
  | some q => q
  | none => ⟨0, 1⟩

/-- Setting a metadata field: `if val != "N/A": current_doc[k] = val`. -/
def setField (v : String) (upd : String → ParsedDoc) (d : ParsedDoc) : ParsedDoc :=
  if v ≠ "N/A" then upd v else d

/-- The `"Score:"` header test of the line loop. -/
def isScoreHeader (line : String) : Bool :=
  strContains line "Score:" && strContains line "[" && strContains line "]"

/-- The `current_doc` update of one (already stripped) line of the loop: a
score header resets the document (when the previous one was saved — i.e. had
a `lecture_id`) and stores the new score; a recognised field prefix stores
the field; any other line leaves the document unchanged. -/
def stepLineDoc (d : ParsedDoc) (line : String) : ParsedDoc :=
  if isScoreHeader line then
    if d.lecture_id.isSome then { ({} : ParsedDoc) with score := some (scoreFromLine line) }
    else { d with score := some (scoreFromLine line) }
  else if pyStartswith line "Lecture ID:" then
    setField (valAfterColon line) (fun v => { d with lecture_id := some v }) d
  else if pyStartswith line "Transcript ID:" then
    setField (valAfterColon line) (fun v => { d with transcript_id := some v }) d
  else if pyStartswith line "Chunk ID:" then
    setField (valAfterColon line) (fun v => { d with chunk_id := some v }) d
  else if pyStartswith line "Subject ID:" then
    setField (valAfterColon line) (fun v => { d with subject_id := some v }) d
  else if pyStartswith line "Topics:" then
    setField (valAfterColon line) (fun v => { d with topics := some v }) d
  else if pyStartswith line "Chapter:" then
    setField (valAfterColon line) (fun v => { d with chapter := some v }) d
  else if pyStartswith line "Class Name:" then
    setField (valAfterColon line) (fun v => { d with class_name := some v }) d
  else if pyStartswith line "Class ID:" then
    setField (valAfterColon line) (fun v => { d with class_id := some v }) d
  else if pyStartswith line "Teacher Name:" then
    setField (valAfterColon line) (fun v => { d with teacher_name := some v }) d
  else if pyStartswith line "Teacher ID:" then
    setField (valAfterColon line) (fun v => { d with teacher_id := some v }) d
  else if pyStartswith line "Subject:" then
    setField (valAfterColon line) (fun v => { d with subject := some v }) d
  else d

/-- One iteration of the line loop of `extract_citations`: the citation list
grows (through the save-document block) exactly when a score header arrives
while the previous `current_doc` holds a `lecture_id`. -/
def stepLine (minScore : PyFloat) (st : ParsedDoc × List Citation) (rawLine : String) :
    ParsedDoc × List Citation :=
  let line := pyStrip rawLine
  (stepLineDoc st.1 line,
   if isScoreHeader line && st.1.lecture_id.isSome then flushDoc minScore st.1 st.2
   else st.2)

/-- Parsing one observation: split on newlines, run the line loop, then
append the last document. -/
def processObservation (minScore : PyFloat) (obs : String) : List Citation :=
  let st := (pySplit "\n" obs).foldl (stepLine minScore) (({} : ParsedDoc), [])
  flushDoc minScore st.1 st.2

/-- One step of the reasoning chain, as `extract_citations` reads it
(`step.get("action")`, `step.get("observation", "")`). -/
structure ChainStep where
  action : Option String := none
  observation : String := ""
  deriving DecidableEq, Repr

/-- Citation collection over the whole chain, before de-duplication. -/
def extractRaw (minScore : PyFloat) (chain : List ChainStep) : List Citation :=
  chain.foldl
    (fun acc step =>
      if step.action = some "retrieve_documents" then
        acc ++ processObservation minScore step.observation
      else acc)
    []

/-- The de-duplication loop: keep a citation when its `lecture_id` is truthy
(present and non-empty) and unseen. -/
def dedupCitations : List Citation → List String → List Citation
  | [], _ => []
  | c :: cs, seen =>
    match c.doc.lecture_id with
    | some key =>
      if key ≠ "" ∧ key ∉ seen then c :: dedupCitations cs (key :: seen)
      else dedupCitations cs seen
    | none => dedupCitations cs seen

/-- `CitationService.extract_citations(reasoning_chain, min_score=0.0)`
exactly as shipped in src/services/citation_service.py: it takes a reasoning
chain and a score threshold only (there is no source-document parameter). -/
def extract_citations (chain : List ChainStep) (minScore : PyFloat) : List Citation :=
  dedupCitations (extractRaw minScore chain) []

/-! ## RetrievalTool.format_documents (src/tools/retrieval_tool.py)

The shipped formatter takes only the document list: it enumerates the top
five documents as `"{i}. [Score: ...]"` blocks exposing every metadata field
(`Lecture ID:`, `Transcript ID:`, ...) and the full text. -/

/-- A retrieved document as the formatter and the retrieve node read it;
metadata values carry their `str()` rendering, `none` prints as `N/A`. -/
structure SourceDoc where
  id : String
  score : PyFloat
  text : String
  lecture_id : Option String := none
  transcript_id : Option String := none
  chunk_id : Option String := none
  chapter : Option String := none
  subject : Option String := none
  subject_id : Option String := none
  topics : Option String := none
  class_name : Option String := none
  class_id : Option String := none
  teacher_name : Option String := none
  teacher_id : Option String := none
  deriving DecidableEq, Repr

/-- One `"   Label: value"` metadata line of the formatter. -/
def metaLine (label : String) (v : Option String) : String :=
  "   " ++ label ++ ": " ++ v.getD "N/A" ++ "\n"

/-- One document block of `format_documents` (1-indexed). -/
def formatDoc (i : Nat) (doc : SourceDoc) : String :=
  toString i ++ ". [Score: " ++ fmt2 doc.score ++ "]\n" ++
  metaLine "Lecture ID" doc.lecture_id ++
  metaLine "Transcript ID" doc.transcript_id ++
  metaLine "Chunk ID" doc.chunk_id ++
  metaLine "Chapter" doc.chapter ++
  metaLine "Subject" doc.subject ++
  metaLine "Subject ID" doc.subject_id ++
  metaLine "Topics" doc.topics ++
  metaLine "Class Name" doc.class_name ++
  metaLine "Class ID" doc.class_id ++
  metaLine "Teacher Name" doc.teacher_name ++
  metaLine "Teacher ID" doc.teacher_id ++
  "   Content: " ++ doc.text ++ "\n\n"

/-- `RetrievalTool.format_documents(docs)` as shipped: no `min_score`
parameter, no `Source {i}` labels, metadata fully exposed. -/
def format_documents (docs : List SourceDoc) : String :=
  if docs.isEmpty then "No documents found."
  else
    "Found " ++ toString docs.length ++ " documents:\n\n" ++
    String.join ((docs.take 5).enum.map fun p => formatDoc (p.1 + 1) p.2) ++
    (if 5 < docs.length then "... and " ++ toString (docs.length - 5) ++ " more documents\n"
     else "")

/-! ## RetrieveDocumentsNode (src/nodes/retrieve_documents.py)

The node filters retrieved documents by score before handing them to the
validator / state and builds the turn's lightweight citation list from the
filtered documents.  (Its observation text is built by calling
`RetrievalTool.format_documents(docs, min_score=0.40)` — a two-argument
variant that does not exist in src/tools/retrieval_tool.py.) -/

/-- The float literal `0.40` (its double value differs from 2/5 by less than
1e-16, which no exact-hundredth score can separate). -/
def scoreThreshold : PyFloat := ⟨40, 100⟩

/-- `high_score_docs = [d for d in docs if d.get("score", 0.0) >= 0.40]`. -/
def retrieveNode_highScoreDocs (docs : List SourceDoc) : List SourceDoc :=
  docs.filter fun d => PyFloat.le scoreThreshold d.score

/-- The lightweight citation dictionaries the node stores in
`state["citations"]`. -/
structure NodeCitation where
  id : String
  score : PyFloat
  subject : Option String
  topics : Option String
  class_id : Option String
  lecture_id : Option String
  transcript_id : Option String
  chunk_id : Option String
  deriving DecidableEq, Repr

/-- The citation-building loop over `state["documents"]`. -/
def retrieveNode_citations (documents : List SourceDoc) : List NodeCitation :=
  documents.map fun d =>
    { id := d.id, score := d.score, subject := d.subject, topics := d.topics,
      class_id := d.class_id, lecture_id := d.lecture_id,
      transcript_id := d.transcript_id, chunk_id := d.chunk_id }

/-! ## ReActAgent.run (src/agents/react_agent.py)

The loop is modelled with explicit oracles for the two LLM entry points
(`llm_with_tools.ainvoke` and the plain `llm.ainvoke` used for synthesis) and
for tool execution; `Except.error` models a raised exception.  The dictionary
plumbing on tool arguments (dropping null/empty fields, overriding a
retrieval call's filters with the caller-supplied request filters) is
abstracted as an opaque `prepArgs` function on the stringly-typed argument
payload, since no claim depends on its contents. -/

structure ToolCall where
  name : String
  args : String
  id : String
  deriving DecidableEq, Repr

structure LLMResponse where
  content : String
  tool_calls : List ToolCall
  deriving DecidableEq, Repr

/-- LangChain message kinds the loop produces and consumes. -/
inductive Msg where
  | system (content : String)
  | human (content : String)
  | ai (content : String) (tool_calls : List ToolCall)
  | tool (content : String) (tool_call_id : String) (name : String)
  deriving DecidableEq, Repr

/-- One scratchpad entry (the `duration` debug key is timing-only and not
modelled). -/
structure ScratchStep where
  iteration : Nat
  thought : String
  action : String
  action_input : String
  observation : String
  deriving DecidableEq, Repr

/-- The dictionary `run` returns, instrumented with how often each LLM entry
point was invoked (`toolLLMCalls` counts `llm_with_tools.ainvoke`,
`plainLLMCalls` the synthesis `llm.ainvoke`) and with whether the `for` loop
ran out of iterations without producing a final answer (`boundReached`). -/
structure RunResult where
  answer : String
  reasoning_chain : List ScratchStep
  iterations : Nat
  toolLLMCalls : Nat
  plainLLMCalls : Nat
  boundReached : Bool
  deriving DecidableEq, Repr

/-- The loop's environment: LLM and tool oracles plus configuration. -/
structure ReActEnv where
  llmWithTools : List Msg → Except String LLMResponse
  llm : List Msg → Except String String
  tools : String → String → Except String String
  prepArgs : String → String → String
  enforceSequential : Bool

def FALLBACK_MESSAGE : String :=
  "I couldn't find a definitive answer in the curriculum materials. Could you please provide more details or rephrase your question?"

def SYNTHESIS_PROMPT : String :=
  "You reached the maximum number of thought steps. Based on the information you collected so far, provide the most complete answer possible. If you still don't have enough info, be honest but helpful."

def POSTPONE_WEB_SEARCH : String :=
  "ERROR: Web search cannot be used in parallel with 'retrieve_documents'. Please review the results of the curriculum search below first. If they are insufficient, you may use 'web_search' in the NEXT turn."

/-- `_execute_tool`: a tool exception becomes the observation
`"Error: <message>"`. -/
def execTool (env : ReActEnv) (name args : String) : String :=
  match env.tools name args with
  | .ok s => s
  | .error m => "Error: " ++ m

/-- The observation produced for one requested tool call (including the
sequential-policy postponement of `web_search`). -/
def toolObservation (env : ReActEnv) (hasRetrieval : Bool) (tc : ToolCall) : String :=
  if env.enforceSequential && tc.name == "web_search" && hasRetrieval then POSTPONE_WEB_SEARCH
  else execTool env tc.name (env.prepArgs tc.name tc.args)

/-- `has_observations`: some scratchpad observation is truthy (non-empty) and
does not contain the marker `NO_DOCS_FOUND`. -/
def hasObservations (scratchpad : List ScratchStep) : Bool :=
  scratchpad.any fun t => t.observation != "" && !(strContains t.observation "NO_DOCS_FOUND")

/-- The code after the `for` loop: synthesis attempt when any usable
observation was collected, fixed fallback otherwise. -/
def finishAtBound (env : ReActEnv) (maxIter : Nat) (messages : List Msg)
    (scratchpad : List ScratchStep) (tCalls : Nat) : Except String RunResult :=
  if hasObservations scratchpad then
    match env.llm (messages ++ [.human SYNTHESIS_PROMPT]) with
    | .error e => .error e
    | .ok content =>
      .ok { answer := content, reasoning_chain := scratchpad, iterations := maxIter,
            toolLLMCalls := tCalls, plainLLMCalls := 1, boundReached := true }
  else
    .ok { answer := FALLBACK_MESSAGE, reasoning_chain := scratchpad, iterations := maxIter,
          toolLLMCalls := tCalls, plainLLMCalls := 0, boundReached := true }

/-- The `for iteration in range(1, max_iterations + 1)` loop; `remaining`
counts the iterations still allowed, `iteration` the 1-based index. -/
def runFrom (env : ReActEnv) (maxIter : Nat) :
    Nat → Nat → List Msg → List ScratchStep → Nat → Except String RunResult
  | 0, _, messages, scratchpad, tCalls => finishAtBound env maxIter messages scratchpad tCalls
  | remaining + 1, iteration, messages, scratchpad, tCalls =>
    match env.llmWithTools messages with
    | .error e => .error e
    | .ok resp =>
      let messages := messages ++ [.ai resp.content resp.tool_calls]
      if resp.tool_calls.isEmpty then
        .ok { answer := resp.content, reasoning_chain := scratchpad, iterations := iteration,
              toolLLMCalls := tCalls + 1, plainLLMCalls := 0, boundReached := false }
      else
        let hasRetrieval := resp.tool_calls.any fun tc => tc.name == "retrieve_documents"
        let entries := resp.tool_calls.map fun tc =>
          (tc, env.prepArgs tc.name tc.args, toolObservation env hasRetrieval tc)
        let scratchpad := scratchpad ++ entries.map fun e =>
          { iteration := iteration, thought := "Using tool...", action := e.1.name,
            action_input := e.2.1, observation := e.2.2 }
        let messages := messages ++ entries.map fun e => Msg.tool e.2.2 e.1.id e.1.name
        runFrom env maxIter remaining (iteration + 1) messages scratchpad (tCalls + 1)

/-- A prefilled observation from proactive retrieval / web search. -/
structure PrefilledObs where
  tool : String
  args : String
  observation : String
  deriving DecidableEq, Repr

/-- The scratchpad entries recorded for prefilled observations
(iteration 0). -/
def prefilledScratch (prefilled : List PrefilledObs) : List ScratchStep :=
  prefilled.map fun o =>
    { iteration := 0, thought := "Proactive retrieval...", action := o.tool,
      action_input := o.args, observation := o.observation }

/-- The synthetic tool-call/response message pair spliced into the history
for prefilled observations (`uuid`-generated call ids modelled by index). -/
def prefilledMessages (prefilled : List PrefilledObs) : List Msg :=
  Msg.ai "" (prefilled.enum.map fun p => ⟨p.2.tool, p.2.args, "call_" ++ toString p.1⟩) ::
    prefilled.enum.map fun p => Msg.tool p.2.observation ("call_" ++ toString p.1) p.2.tool

/-- `_build_messages` (summary and session-metadata context are folded into
the `systemPrompt` argument: they only affect prompt text). -/
def buildMessages (systemPrompt : String) (history : List Msg) (query : String) : List Msg :=
  Msg.system systemPrompt :: history ++ [Msg.human query]

/-- `ReActAgent.run`. -/
def ReActAgent.run (env : ReActEnv) (maxIter : Nat) (initMessages : List Msg)
    (prefilled : List PrefilledObs) : Except String RunResult :=
  let scratchpad := prefilledScratch prefilled
  let messages :=
    if prefilled.isEmpty then initMessages else initMessages ++ prefilledMessages prefilled
  runFrom env maxIter maxIter 1 messages scratchpad 0

/-! ## StudentAgent.__call__ exception handling (src/agents/student_agent.py)

The `try` block runs `react_agent.run` and post-processes the result; an
exception escaping it (in particular an LLM invocation error, which `run`
does not catch) is handled by substituting the fixed fallback message and
resetting the call counter and citation list.  The post-processing of a
successful run is abstracted as `onSuccess`. -/

structure AgentOutcome where
  response : String
  llm_calls : Nat
  citations : List Citation
  deriving DecidableEq, Repr

def studentAgentHandle (runResult : Except String RunResult)
    (onSuccess : RunResult → AgentOutcome) : AgentOutcome :=
  match runResult with
  | .ok r => onSuccess r
  | .error _ => { response := FALLBACK_MESSAGE, llm_calls := 0, citations := [] }

/-! ## MemoryService (src/services/chat_memory.py) -/

/-- Session-restart detection shared by `ensure_session` and
`load_session_full`.  Timestamps are integer microseconds of UTC time
(Python datetimes have microsecond resolution; the source normalises aware
datetimes to naive UTC before subtracting, which preserves the instant).
`none` models a session without `updated_at`; `messageCount` is
`len(session.messages)`.  The threshold is
`SESSION_RESTART_THRESHOLD = 7200` seconds. -/
def isSessionRestart (nowUs : Int) (updatedAtUs : Option Int) (messageCount : Nat) : Bool :=
  match updatedAtUs with
  | none => false
  | some u => decide ((7200 * 1000000 : Int) < nowUs - u) && decide (0 < messageCount)

/-- One stored message (role, text); timestamps play no role in the
duplicate check. -/
structure MsgRec where
  role : String
  text : String
  deriving DecidableEq, Repr

/-- The message-append logic of `background_save_message` (MongoDB tier):
drop the append when the last stored message has the same role and exact
text.  (The every-10th-message summarization scheduling in the same method
does not touch the message log and is not modelled.) -/
def background_save_message (msgs : List MsgRec) (role text : String) : List MsgRec :=
  match msgs.getLast? with
  | some m => if m.role = role ∧ m.text = text then msgs else msgs ++ [⟨role, text⟩]
  | none => msgs ++ [⟨role, text⟩]

/-- Redis `LTRIM key -limit -1`: keep the last `limit` entries. -/
def ltrimLast (l : List α) (limit : Nat) : List α :=
  l.drop (l.length - limit)

/-- `add_message` (Redis tier): the same duplicate check against the
buffer's last entry, then `RPUSH` + `LTRIM` to `memory_buffer_size + 10`. -/
def add_message (bufferSize : Nat) (buf : List MsgRec) (role content : String) :
    List MsgRec :=
  match buf.getLast? with
  | some m =>
    if m.role = role ∧ m.text = content then buf
    else ltrimLast (buf ++ [⟨role, content⟩]) (bufferSize + 10)
  | none => ltrimLast (buf ++ [⟨role, content⟩]) (bufferSize + 10)

/-- Modelled from the spec: `langchain_core.messages.trim_messages` with
`strategy="last"`, `start_on="human"`, `include_system=False` — third-party
library code absent from src/.  Per the spec (§4.5), messages are trimmed
from the oldest end until the total token count (as measured by the
configured tokenizer) is under the configured ceiling, and the kept window
always starts on a user message.  `fittingSuffix` keeps the longest suffix
within the budget. -/
def fittingSuffix (counter : MsgRec → Nat) (maxTokens : Nat) : List MsgRec → List MsgRec
  | [] => []
  | m :: ms =>
    if ((m :: ms).map counter).sum ≤ maxTokens then m :: ms
    else fittingSuffix counter maxTokens ms

/-- Modelled from the spec: the trimming itself — the in-budget suffix,
then messages dropped from its front until the window starts on a
user message. -/
def trim_messages (msgs : List MsgRec) (maxTokens : Nat) (counter : MsgRec → Nat) :
    List MsgRec :=
  (fittingSuffix counter maxTokens msgs).dropWhile fun m => m.role != "user"

/-- The buffer-to-messages conversion of `load_session_full` /
`get_context`: only `user` and `assistant` roles are converted, others are
dropped. -/
def bufferToMessages (buffer : List MsgRec) : List MsgRec :=
  buffer.filter fun m => m.role == "user" || m.role == "assistant"

/-- The trimmed history `load_session_full` returns to agents. -/
def load_trimmed_history (buffer : List MsgRec) (limit : Nat) (counter : MsgRec → Nat) :
    List MsgRec :=
  trim_messages (bufferToMessages buffer) limit counter

/-! ## Validation / correction routing (src/graph.py,
src/nodes/groundedness_check.py, src/agents/student_agent.py)

The educational tail of the graph: agent → translate → groundedness check →
route (`pass` → persist, `fail` → same agent again).  Only the fields the
routing reads are modelled; `validator` abstracts one validation call and
returns `none` when the check is skipped for reasons other than the
correction flag (disabled mode, fast-mode conversational query, empty
response, English target). -/

structure ValidationResult where
  is_valid : Bool
  feedback : String
  deriving DecidableEq, Repr

structure EdFlowState where
  is_correction : Bool
  validation_results : Option ValidationResult
  agent_runs : Nat
  deriving DecidableEq, Repr

/-- The educational agent node: it sets `is_correction` when invoked with a
failed validation result in state (student_agent.py lines 181-186), and runs
once (`agent_runs` is ghost instrumentation). -/
def agentStep (s : EdFlowState) : EdFlowState :=
  { s with
    is_correction :=
      s.is_correction ||
        (match s.validation_results with
         | some v => !v.is_valid
         | none => false),
    agent_runs := s.agent_runs + 1 }

/-- `GroundednessCheckNode.__call__`: skipped outright on a correction turn;
otherwise the validator may run and store its result. -/
def groundednessStep (validator : EdFlowState → Option ValidationResult)
    (s : EdFlowState) : EdFlowState :=
  if s.is_correction then s
  else
    match validator s with
    | none => s
    | some v => { s with validation_results := some v }

/-- `ChatbotGraphBuilder._route_after_validation`: `true` = "pass". -/
def route_after_validation (s : EdFlowState) : Bool :=
  match s.validation_results with
  | none => true
  | some v => v.is_valid || s.is_correction

/-- The agent → validation → route cycle, iterated until it routes to
"pass"; `fuel` bounds the unrolling, `none` meaning the bound was hit with
the cycle still looping. -/
def educationalFlow (validator : EdFlowState → Option ValidationResult) :
    Nat → EdFlowState → Option EdFlowState
  | 0, _ => none
  | fuel + 1, s =>
    let s' := groundednessStep validator (agentStep s)
    if route_after_validation s' then some s' else educationalFlow validator fuel s'

/-! ## Metadata filter normalisation (src/services/retriever.py, lines
145-191 of `RetrieverService.retrieve`) -/

/-- Python values a filter entry can carry (tuples are modelled as lists;
they take the same branch). -/
inductive FVal where
  | str (s : String)
  | int (n : Int)
  | num (x : PyFloat)
  | bool (b : Bool)
  | pynone
  | list (vs : List FVal)
  | dict (entries : List (String × FVal))
  deriving Repr

/-- A normalised Pinecone filter value: `{"$eq": v}`, `{"$in": vs}`, or an
operator dictionary passed through unchanged. -/
inductive PFilter where
  | eq (v : FVal)
  | mem (vs : List FVal)
  | op (entries : List (String × FVal))
  deriving Repr

def WHITELIST : List String :=
  ["class_id", "class_name", "subject", "subject_id", "lecture_id", "teacher_id",
   "teacher_name", "transcript_id", "is_ingested", "topics", "chapter"]

def INT_FIELDS : List String :=
  ["class_id", "subject_id", "lecture_id", "teacher_id", "transcript_id", "chunk_index"]

/-- Python `int(s)` for a string: optional whitespace and sign, then decimal
digits (`ValueError` is `none`; digit-group underscores are not modelled). -/
def pyIntOfString (s : String) : Option Int :=
  let cs := (pyStrip s).toList
  let (sgn, cs) : Int × List Char :=
    match cs with
    | '+' :: t => (1, t)
    | '-' :: t => (-1, t)
    | t => (1, t)
  if cs ≠ [] ∧ cs.all Char.isDigit then some (sgn * (digitsToNat cs : Int)) else none

/-- Python `int(item)` for the list-element cast, with `ValueError` and
`TypeError` both yielding `none` (caught by the `except` that keeps the
original item). -/
def pyIntCast : FVal → Option Int
  | .str s => pyIntOfString s
  | .int n => some n
  | .bool b => some (if b then 1 else 0)
  | .num x => some (Int.tdiv x.num (x.den : Int))
  | _ => none

/-- The element-wise cast attempt inside the list branch: a non-coercible
item is appended unchanged. -/
def castIntList (vs : List FVal) : List FVal :=
  vs.map fun it =>
    match pyIntCast it with
    | some n => .int n
    | none => it

/-- One iteration of the filter-normalisation loop. -/
def transformFilterEntry (k : String) (v : FVal) : Option (String × PFilter) :=
  if k ∈ WHITELIST then
    let v? : Option FVal :=
      match v with
      | .str s => if k ∈ INT_FIELDS then (pyIntOfString s).map FVal.int else some v
      | _ => some v
    match v? with
    | none => none
    | some v =>
      match v with
      | .dict d => some (k, .op d)
      | .list vs => some (k, .mem (if k ∈ INT_FIELDS then castIntList vs else vs))
      | _ => some (k, .eq v)
  else none

/-- The whole `metadata_filter` construction (filter keys are unique —
`filters` is a Python dict). -/
def transformFilters (filters : List (String × FVal)) : List (String × PFilter) :=
  filters.filterMap fun kv => transformFilterEntry kv.1 kv.2

/-- A scalar filter value (neither a list/tuple nor a dict). -/
def isScalarF : FVal → Bool
  | .list _ => false
  | .dict _ => false
  | _ => true

/-- A string filter value. -/
def isStrF : FVal → Bool
  | .str _ => true
  | _ => false

/-! ## Concrete fixtures used by counterexamples and witnesses -/

/-- The first mock document of scripts/verify_citation_linking.py (score
0.95, lecture 101). -/
def docA : SourceDoc :=
  { id := "doc_1", score := ⟨95, 100⟩, text := "P1", lecture_id := some "101",
    subject := some "Biology", chapter := some "Plant Life", transcript_id := some "T1" }

/-- The third mock document of scripts/verify_citation_linking.py (score
0.85, lecture 103). -/
def docB : SourceDoc :=
  { id := "doc_3", score := ⟨85, 100⟩, text := "P3", lecture_id := some "103",
    subject := some "Biology", chapter := some "Plant Life", transcript_id := some "T3" }

/-- An observation in the `Source {i}`-labelled format the spec (§4.4) and
the repository's own verification scripts describe for the retrieval tool. -/
def sourceLabeledObs : String :=
  "Found 2 documents:\n\nSource 1 [Score: 0.95]: Photosynthesis is the process.\n\nSource 2 [Score: 0.85]: Chlorophyll is the green pigment.\n"

/-- An observation listing a 0.5-scoring document before a 0.9-scoring
one. -/
def unsortedObs : String :=
  "1. [Score: 0.5]\n   Lecture ID: 7\n2. [Score: 0.9]\n   Lecture ID: 8\n"

/-- A retrieved pair: one document scoring 0.9, one scoring 0.3. -/
def d09 : SourceDoc :=
  { id := "doc_a", score := ⟨90, 100⟩, text := "High score content", lecture_id := some "1" }

def d03 : SourceDoc :=
  { id := "doc_b", score := ⟨30, 100⟩, text := "Low score content", lecture_id := some "2" }

/-- A loop environment whose model always requests one retrieval call and
whose tool always answers with a `NO_DOCS_FOUND` marker. -/
def envNoDocs : ReActEnv :=
  { llmWithTools := fun _ => .ok ⟨"", [⟨"retrieve_documents", "q", "id1"⟩]⟩,
    llm := fun _ => .ok "synthesised",
    tools := fun _ _ => .ok "NO_DOCS_FOUND for this query",
    prepArgs := fun _ a => a,
    enforceSequential := false }

/-- A loop environment whose model answers directly without tool calls. -/
def envOk : ReActEnv :=
  { llmWithTools := fun _ => .ok ⟨"direct answer", []⟩,
    llm := fun _ => .ok "synthesised",
    tools := fun _ _ => .ok "obs",
    prepArgs := fun _ a => a,
    enforceSequential := false }

/-- A loop environment whose model invocation raises. -/
def envLLMErr : ReActEnv :=
  { llmWithTools := fun _ => .error "boom",
    llm := fun _ => .ok "synthesised",
    tools := fun _ _ => .ok "obs",
    prepArgs := fun _ a => a,
    enforceSequential := false }

/-- A validator that always fails with fixed feedback. -/
def alwaysInvalidValidator : EdFlowState → Option ValidationResult :=
  fun _ => some ⟨false, "language mismatch"⟩

/-- A fresh turn entering the educational branch. -/
def freshTurnState : EdFlowState :=
  { is_correction := false, validation_results := none, agent_runs := 0 }

/-! # Theorems -/

set_option maxRecDepth 200000

/-- C6: for an existing session with at least one message, the turn is
flagged as a restart exactly when `updated_at` lies more than 7200 seconds
(2 hours) in the past; a session updated 119 minutes ago is not flagged, one
updated 121 minutes ago is, and a session with zero messages is never
flagged, whatever its `updated_at`.  Times are microseconds. -/
theorem c6_restart_detection (nowUs u : Int) (m : Nat) (hm : 1 ≤ m) :
    (isSessionRestart nowUs (some u) m = true ↔ 7200 * 1000000 < nowUs - u)
    ∧ isSessionRestart nowUs (some (nowUs - 119 * 60 * 1000000)) m = false
    ∧ isSessionRestart nowUs (some (nowUs - 121 * 60 * 1000000)) m = true
    ∧ (∀ u', isSessionRestart nowUs u' 0 = false) := by
  have hm' : 0 < m := hm
  refine ⟨?_, ?_, ?_, ?_⟩
  · simp [isSessionRestart, hm']
  · have h : nowUs - (nowUs - 119 * 60 * 1000000) = 119 * 60 * 1000000 := by ring
    simp [isSessionRestart, h]
  · have h : nowUs - (nowUs - 121 * 60 * 1000000) = 121 * 60 * 1000000 := by ring
    simp [isSessionRestart, h, hm']
  · intro u'
    cases u' <;> simp [isSessionRestart]

/-- C6 witness: a session updated 7260 seconds ago with one message is
flagged as a restart. -/
theorem c6_restart_detection_witness :
    isSessionRestart 7260000000 (some 0) 1 = true :=
  (c6_restart_detection 7260000000 0 1 (le_refl 1)).1.mpr (by decide)

lemma getLast?_ltrim_concat (l : List MsgRec) (a : MsgRec) (k : Nat) :
    (ltrimLast (l ++ [a]) (k + 1)).getLast? = some a := by
  unfold ltrimLast
  have hdrop : (l ++ [a]).length - (k + 1) ≤ l.length := by
    simp only [List.length_append, List.length_cons, List.length_nil]
    omega
  rw [List.drop_append_of_le_length hdrop, List.getLast?_concat]

/-- C7 counterexample: when the log already ends with the very message being
appended, appending it twice leaves the log with zero new entries, not
exactly one — the duplicate check drops both appends. -/
theorem c7_counterexample :
    (background_save_message (background_save_message [⟨"user", "hi"⟩] "user" "hi") "user" "hi").length
        = ([⟨"user", "hi"⟩] : List MsgRec).length
    ∧ (add_message 10 (add_message 10 [⟨"user", "hi"⟩] "user" "hi") "user" "hi").length
        = ([⟨"user", "hi"⟩] : List MsgRec).length := by
  decide

/-- C7 (amended): appending the same `(role, text)` twice in a row is the
same as appending it once in both tiers (the duplicate check compares the
last stored message by role and exact text); when the log does not already
end in that exact message, the first append adds exactly one new entry. -/
theorem c7_duplicate_suppression (bufferSize : Nat) (msgs buf : List MsgRec)
    (role text : String) :
    background_save_message (background_save_message msgs role text) role text = background_save_message msgs role text
    ∧ add_message bufferSize (add_message bufferSize buf role text) role text
        = add_message bufferSize buf role text
    ∧ ((∀ m, msgs.getLast? = some m → ¬(m.role = role ∧ m.text = text)) →
        background_save_message msgs role text = msgs ++ [⟨role, text⟩]
        ∧ (background_save_message msgs role text).length = msgs.length + 1)
    ∧ ((∀ m, buf.getLast? = some m → ¬(m.role = role ∧ m.text = text)) →
        add_message bufferSize buf role text
            = ltrimLast (buf ++ [⟨role, text⟩]) (bufferSize + 10)) := by
  refine ⟨?_, ?_, ?_, ?_⟩
  · unfold background_save_message
    cases h : msgs.getLast? with
    | none => simp [List.getLast?_concat]
    | some m0 =>
      by_cases hd : m0.role = role ∧ m0.text = text
      · simp [h, hd]
      · simp [h, hd, List.getLast?_concat]
  · unfold add_message
    cases h : buf.getLast? with
    | none =>
      have := getLast?_ltrim_concat buf ⟨role, text⟩ (bufferSize + 9)
      simp [show bufferSize + 9 + 1 = bufferSize + 10 by omega] at this
      simp [this]
    | some m0 =>
      by_cases hd : m0.role = role ∧ m0.text = text
      · simp [h, hd]
      · have := getLast?_ltrim_concat buf ⟨role, text⟩ (bufferSize + 9)
        simp [show bufferSize + 9 + 1 = bufferSize + 10 by omega] at this
        simp [h, hd, this]
  · intro hlast
    unfold background_save_message
    cases h : msgs.getLast? with
    | none => simp
    | some m0 => simp [hlast m0 h]
  · intro hlast
    unfold add_message
    cases h : buf.getLast? with
    | none => simp
    | some m0 => simp [hlast m0 h]

/-- C7 witness: on the empty log, appending `(user, hi)` once creates the
entry and appending it again changes nothing. -/
theorem c7_duplicate_suppression_witness :
    background_save_message (background_save_message [] "user" "hi") "user" "hi"
        = background_save_message [] "user" "hi"
    ∧ background_save_message ([] : List MsgRec) "user" "hi" = [⟨"user", "hi"⟩] := by
  refine ⟨(c7_duplicate_suppression 0 [] [] "user" "hi").1, ?_⟩
  have h := ((c7_duplicate_suppression 0 [] [] "user" "hi").2.2.1 (by intro m hm; simp at hm)).1
  simpa using h

lemma fittingSuffix_sum_le (counter : MsgRec → Nat) (T : Nat) :
    ∀ l : List MsgRec, ((fittingSuffix counter T l).map counter).sum ≤ T := by
  intro l
  induction l with
  | nil => simp [fittingSuffix]
  | cons m ms ih =>
    rw [fittingSuffix]
    split
    · assumption
    · exact ih

lemma head?_dropWhile_not {α : Type} (p : α → Bool) (l : List α) :
    ((l.dropWhile p).head?.all fun x => !p x) = true := by
  induction l with
  | nil => rfl
  | cons x xs ih =>
    rw [List.dropWhile_cons]
    by_cases h : p x
    · simpa [h] using ih
    · simp [h]

/-- C8 counterexample: for the history consisting of one assistant message
of one token and a ceiling of 10 tokens, the trimmed history is empty — it
does not begin with a user-role message although the ceiling is not smaller
than the last single message. -/
theorem c8_counterexample :
    load_trimmed_history [⟨"assistant", "x"⟩] 10 (fun _ => 1) = []
    ∧ (fun (_ : MsgRec) => 1) ⟨"assistant", "x"⟩ ≤ 10 :=
  ⟨rfl, by decide⟩

/-- C8 (amended, spec-modelled trimming): for every buffer, ceiling and
tokenizer, the history handed to agents totals at most the ceiling in
tokens, and whenever it is non-empty it begins with a user-role message (it
can be empty, e.g. when the ceiling is smaller than the last message or no
user message lies within the fitting window). -/
theorem c8_token_budget (buffer : List MsgRec) (limit : Nat) (counter : MsgRec → Nat) :
    ((load_trimmed_history buffer limit counter).map counter).sum ≤ limit
    ∧ ((load_trimmed_history buffer limit counter).head?.all fun m => m.role == "user") = true := by
  constructor
  · unfold load_trimmed_history trim_messages
    have hsub : List.Sublist
        ((fittingSuffix counter limit (bufferToMessages buffer)).dropWhile
          fun m => m.role != "user")
        (fittingSuffix counter limit (bufferToMessages buffer)) :=
      List.dropWhile_sublist _
    have hsum := List.Sublist.sum_le_sum (hsub.map counter) (fun a _ => Nat.zero_le a)
    exact hsum.trans (fittingSuffix_sum_le counter limit (bufferToMessages buffer))
  · have h := head?_dropWhile_not (fun m => m.role != "user")
      (fittingSuffix counter limit (bufferToMessages buffer))
    unfold load_trimmed_history trim_messages
    simpa [bne, Bool.not_not] using h

lemma transformFilterEntry_some (k : String) (v : FVal) (p : String × PFilter)
    (h : transformFilterEntry k v = some p) : p.1 = k ∧ k ∈ WHITELIST := by
  by_cases hw : k ∈ WHITELIST
  · refine ⟨?_, hw⟩
    cases v with
    | str s =>
      by_cases hi : k ∈ INT_FIELDS
      · cases hn : pyIntOfString s with
        | none => simp [transformFilterEntry, hw, hi, hn] at h
        | some n =>
          simp [transformFilterEntry, hw, hi, hn] at h
          simp [← h]
      · simp [transformFilterEntry, hw, hi] at h
        simp [← h]
    | _ =>
      first
      | (simp [transformFilterEntry, hw] at h; simp [← h])
  · simp [transformFilterEntry, hw] at h

lemma keys_functional (l : List (String × FVal)) (h : (l.map Prod.fst).Nodup) :
    ∀ k v w, (k, v) ∈ l → (k, w) ∈ l → v = w := by
  induction l with
  | nil => intro k v w hv _; simp at hv
  | cons a l ih =>
    rw [List.map_cons, List.nodup_cons] at h
    intro k v w hv hw
    rcases List.mem_cons.mp hv with hv | hv <;> rcases List.mem_cons.mp hw with hw | hw
    · rw [← hv] at hw; exact congrArg Prod.snd hw.symm
    · exact absurd (List.mem_map.mpr ⟨(k, w), hw, by rw [← hv]⟩) h.1
    · exact absurd (List.mem_map.mpr ⟨(k, v), hv, by rw [← hw]⟩) h.1
    · exact ih h.2 k v w hv hw

/-- C10 counterexample: for the identifier field `lecture_id`, the
non-coercible string `"abc"` inside a list value is forwarded unchanged in
the membership filter (first conjunct) — it is not dropped — whereas the
same string as a scalar value drops the entire filter entry (second
conjunct). -/
theorem c10_counterexample :
    transformFilters [("lecture_id", FVal.list [FVal.str "abc"])]
        = [("lecture_id", PFilter.mem [FVal.str "abc"])]
    ∧ transformFilters [("lecture_id", FVal.str "abc")] = [] :=
  ⟨rfl, rfl⟩

/-- C10 (amended): only whitelisted fields are forwarded; scalar values
become `$eq` filters (operator dictionaries pass through) and list values
become `$in` filters; for identifier fields, scalar string values are
coerced to integers and non-coercible scalars are dropped, while list
elements are coerced element-wise with non-coercible elements forwarded
unchanged (`castIntList`). -/
theorem c10_filter_normalisation (fs : List (String × FVal)) :
    (∀ k p, (k, p) ∈ transformFilters fs → k ∈ WHITELIST)
    ∧ (∀ k v, (k, v) ∈ fs → k ∈ WHITELIST → isScalarF v = true →
        ¬(k ∈ INT_FIELDS ∧ isStrF v = true) → (k, PFilter.eq v) ∈ transformFilters fs)
    ∧ (∀ k vs, (k, FVal.list vs) ∈ fs → k ∈ WHITELIST →
        (k, PFilter.mem (if k ∈ INT_FIELDS then castIntList vs else vs))
          ∈ transformFilters fs)
    ∧ (∀ k s n, (k, FVal.str s) ∈ fs → k ∈ WHITELIST → k ∈ INT_FIELDS →
        pyIntOfString s = some n → (k, PFilter.eq (FVal.int n)) ∈ transformFilters fs)
    ∧ ((fs.map Prod.fst).Nodup → ∀ k s, (k, FVal.str s) ∈ fs → k ∈ INT_FIELDS →
        pyIntOfString s = none → ∀ p, (k, p) ∉ transformFilters fs) := by
  refine ⟨?_, ?_, ?_, ?_, ?_⟩
  · intro k p hp
    obtain ⟨⟨k', v'⟩, _, hentry⟩ := List.mem_filterMap.mp hp
    obtain ⟨hk, hw⟩ := transformFilterEntry_some k' v' (k, p) hentry
    simpa [← hk] using hw
  · intro k v hmem hw hscalar hnotstr
    refine List.mem_filterMap.mpr ⟨(k, v), hmem, ?_⟩
    cases v with
    | str s =>
      have hi : k ∉ INT_FIELDS := fun hi => hnotstr ⟨hi, rfl⟩
      simp [transformFilterEntry, hw, hi]
    | list vs => simp [isScalarF] at hscalar
    | dict d => simp [isScalarF] at hscalar
    | _ => simp [transformFilterEntry, hw]
  · intro k vs hmem hw
    refine List.mem_filterMap.mpr ⟨(k, FVal.list vs), hmem, ?_⟩
    simp [transformFilterEntry, hw]
  · intro k s n hmem hw hi hn
    refine List.mem_filterMap.mpr ⟨(k, FVal.str s), hmem, ?_⟩
    simp [transformFilterEntry, hw, hi, hn]
  · intro hnodup k s hmem hi hn p hp
    obtain ⟨⟨k', v'⟩, hin, hentry⟩ := List.mem_filterMap.mp hp
    have hk : k' = k := (transformFilterEntry_some k' v' (k, p) hentry).1.symm
    subst hk
    have hv : v' = FVal.str s := keys_functional fs hnodup k' v' (FVal.str s) hin hmem
    subst hv
    by_cases hw : k' ∈ WHITELIST <;> simp [transformFilterEntry, hw, hi, hn] at hentry

/-- C10 witness: a whitelisted non-identifier scalar string becomes an
equality filter. -/
theorem c10_filter_normalisation_witness :
    ("subject", PFilter.eq (FVal.str "Math"))
      ∈ transformFilters [("subject", FVal.str "Math")] :=
  (c10_filter_normalisation [("subject", FVal.str "Math")]).2.1 "subject" (FVal.str "Math")
    (by simp) (by decide) rfl (by decide)

lemma groundednessStep_agent_runs (validator : EdFlowState → Option ValidationResult)
    (t : EdFlowState) : (groundednessStep validator t).agent_runs = t.agent_runs := by
  unfold groundednessStep
  by_cases h : t.is_correction
  · simp [h]
  · cases validator t <;> simp [h]

lemma correction_second_pass (validator : EdFlowState → Option ValidationResult)
    (s1 : EdFlowState) (hroute : route_after_validation s1 = false) :
    (agentStep s1).is_correction = true
    ∧ groundednessStep validator (agentStep s1) = agentStep s1
    ∧ route_after_validation (agentStep s1) = true := by
  unfold route_after_validation at hroute
  cases hv : s1.validation_results with
  | none => rw [hv] at hroute; simp at hroute
  | some v0 =>
    rw [hv] at hroute
    simp only [Bool.or_eq_false_iff] at hroute
    obtain ⟨hvalid, hcorr⟩ := hroute
    have hc : (agentStep s1).is_correction = true := by
      simp [agentStep, hcorr, hv, hvalid]
    have hval : (agentStep s1).validation_results = some v0 := by simp [agentStep, hv]
    refine ⟨hc, ?_, ?_⟩
    · unfold groundednessStep
      simp [hc]
    · unfold route_after_validation
      rw [hval, hc]
      simp

/-- C9: however the validator behaves, the educational correction loop
terminates: any result of the flow runs the agent at most twice beyond the
entry state; with fuel 2 the loop always completes; and when the first
validation fails, the one retry is invoked with the correction flag set and
with the failed validator verdict (carrying its feedback) still in state,
after which routing passes unconditionally. -/
theorem c9_correction_retry (validator : EdFlowState → Option ValidationResult)
    (s : EdFlowState) :
    (∀ fuel s', educationalFlow validator fuel s = some s' →
        s'.agent_runs ≤ s.agent_runs + 2)
    ∧ (∃ s', educationalFlow validator 2 s = some s')
    ∧ (route_after_validation (groundednessStep validator (agentStep s)) = false →
        (agentStep (groundednessStep validator (agentStep s))).is_correction = true
        ∧ (agentStep (groundednessStep validator (agentStep s))).validation_results
            = (groundednessStep validator (agentStep s)).validation_results
        ∧ educationalFlow validator 2 s
            = some (agentStep (groundednessStep validator (agentStep s)))
        ∧ (agentStep (groundednessStep validator (agentStep s))).agent_runs
            = s.agent_runs + 2) := by
  have hrun1 : (groundednessStep validator (agentStep s)).agent_runs = s.agent_runs + 1 := by
    rw [groundednessStep_agent_runs]
    rfl
  by_cases hroute : route_after_validation (groundednessStep validator (agentStep s)) = true
  · refine ⟨?_, ?_, ?_⟩
    · intro fuel s' hflow
      cases fuel with
      | zero => simp [educationalFlow] at hflow
      | succ n =>
        rw [educationalFlow, hroute] at hflow
        simp at hflow
        rw [← hflow, hrun1]
        omega
    · exact ⟨groundednessStep validator (agentStep s), by rw [educationalFlow, hroute]; rfl⟩
    · intro hfail
      rw [hroute] at hfail
      simp at hfail
  · have hfail : route_after_validation (groundednessStep validator (agentStep s)) = false := by
      simpa using hroute
    obtain ⟨hc, hskip, hpass⟩ := correction_second_pass validator _ hfail
    have hrun2 : (agentStep (groundednessStep validator (agentStep s))).agent_runs
        = s.agent_runs + 2 := by
      show (groundednessStep validator (agentStep s)).agent_runs + 1 = s.agent_runs + 2
      rw [hrun1]
    have hflow2 : educationalFlow validator 2 s
        = some (agentStep (groundednessStep validator (agentStep s))) := by
      rw [educationalFlow, hfail]
      simp only [Bool.false_eq_true, if_false]
      rw [educationalFlow, hskip, hpass]
      rfl
    refine ⟨?_, ⟨_, hflow2⟩, fun _ => ⟨hc, rfl, hflow2, hrun2⟩⟩
    intro fuel s' hflow
    cases fuel with
    | zero => simp [educationalFlow] at hflow
    | succ n =>
      rw [educationalFlow, hfail] at hflow
      simp only [Bool.false_eq_true, if_false] at hflow
      cases n with
      | zero => simp [educationalFlow] at hflow
      | succ m =>
        rw [educationalFlow, hskip, hpass] at hflow
        simp at hflow
        rw [← hflow, hrun2]

/-- C9 witness: with a validator that always fails, a fresh turn completes
within fuel 2 (one correction retry, then unconditional pass). -/
theorem c9_correction_retry_witness :
    ∃ s', educationalFlow alwaysInvalidValidator 2 freshTurnState = some s' :=
  (c9_correction_retry alwaysInvalidValidator freshTurnState).2.1

lemma PyFloat.le_iff_toRat (a b : PyFloat) (ha : 0 < a.den) (hb : 0 < b.den) :
    PyFloat.le a b = true ↔ a.toRat ≤ b.toRat := by
  unfold PyFloat.le PyFloat.toRat
  rw [div_le_div_iff₀ (by exact_mod_cast ha) (by exact_mod_cast hb), decide_eq_true_eq]
  constructor
  · intro h; exact_mod_cast h
  · intro h; exact_mod_cast h

lemma flushDoc_forall (P : Citation → Prop) (ms : PyFloat) (d : ParsedDoc)
    (acc : List Citation) (hacc : ∀ c ∈ acc, P c)
    (hd : PyFloat.le ms d.getScore = true → P (mkCitation d)) :
    ∀ c ∈ flushDoc ms d acc, P c := by
  unfold flushDoc
  split
  · split
    · intro c hc
      rcases List.mem_append.mp hc with h | h
      · exact hacc c h
      · rw [List.mem_singleton.mp h]
        exact hd (by assumption)
    · exact hacc
  · exact hacc

lemma stepLine_snd (ms : PyFloat) (st : ParsedDoc × List Citation) (line : String) :
    (stepLine ms st line).2 = st.2 ∨ (stepLine ms st line).2 = flushDoc ms st.1 st.2 := by
  unfold stepLine
  by_cases h : (isScoreHeader (pyStrip line) && st.1.lecture_id.isSome) = true
  · right; simp [h]
  · left; simp [h]

lemma foldl_stepLine_forall (P : Citation → Prop) (ms : PyFloat)
    (hP : ∀ d : ParsedDoc, PyFloat.le ms d.getScore = true → P (mkCitation d)) :
    ∀ (lines : List String) (st : ParsedDoc × List Citation),
      (∀ c ∈ st.2, P c) → ∀ c ∈ (lines.foldl (stepLine ms) st).2, P c := by
  intro lines
  induction lines with
  | nil => intro st h; exact h
  | cons l ls ih =>
    intro st h
    rw [List.foldl_cons]
    apply ih
    rcases stepLine_snd ms st l with heq | heq <;> rw [heq]
    · exact h
    · exact flushDoc_forall P ms st.1 st.2 h (hP st.1)

lemma processObservation_forall (P : Citation → Prop) (ms : PyFloat) (obs : String)
    (hP : ∀ d : ParsedDoc, PyFloat.le ms d.getScore = true → P (mkCitation d)) :
    ∀ c ∈ processObservation ms obs, P c := by
  unfold processObservation
  exact flushDoc_forall P ms _ _
    (foldl_stepLine_forall P ms hP (pySplit "\n" obs) (({} : ParsedDoc), []) (by simp))
    (hP _)

lemma extractRaw_forall (P : Citation → Prop) (ms : PyFloat)
    (hP : ∀ d : ParsedDoc, PyFloat.le ms d.getScore = true → P (mkCitation d)) :
    ∀ (chain : List ChainStep) (acc : List Citation), (∀ c ∈ acc, P c) →
      ∀ c ∈ chain.foldl
        (fun acc step =>
          if step.action = some "retrieve_documents" then
            acc ++ processObservation ms step.observation
          else acc) acc, P c := by
  intro chain
  induction chain with
  | nil => intro acc h; exact h
  | cons step rest ih =>
    intro acc h
    rw [List.foldl_cons]
    apply ih
    split
    · intro c hc
      rcases List.mem_append.mp hc with hm | hm
      · exact h c hm
      · exact processObservation_forall P ms step.observation hP c hm
    · exact h

lemma dedupCitations_sublist :
    ∀ (l : List Citation) (seen : List String), List.Sublist (dedupCitations l seen) l := by
  intro l
  induction l with
  | nil => intro seen; simp [dedupCitations]
  | cons c cs ih =>
    intro seen
    cases hk : c.doc.lecture_id with
    | none => simp only [dedupCitations, hk]; exact (ih seen).cons c
    | some key =>
      simp only [dedupCitations, hk]
      by_cases hcond : key ≠ "" ∧ key ∉ seen
      · rw [if_pos hcond]
        exact (ih (key :: seen)).cons₂ c
      · rw [if_neg hcond]
        exact (ih seen).cons c

lemma dedupCitations_spec :
    ∀ (l : List Citation) (seen : List String),
      (∀ c ∈ dedupCitations l seen, ∃ k, c.doc.lecture_id = some k ∧ k ≠ "" ∧ k ∉ seen)
      ∧ ((dedupCitations l seen).map fun c => c.doc.lecture_id.getD "").Nodup := by
  intro l
  induction l with
  | nil => intro seen; constructor <;> simp [dedupCitations]
  | cons c cs ih =>
    intro seen
    cases hk : c.doc.lecture_id with
    | none => simp only [dedupCitations, hk]; exact ih seen
    | some key =>
      simp only [dedupCitations, hk]
      by_cases hcond : key ≠ "" ∧ key ∉ seen
      · rw [if_pos hcond]
        have hfc : c.doc.lecture_id.getD "" = key := by rw [hk]; rfl
        constructor
        · intro c' hc'
          rcases List.mem_cons.mp hc' with h | h
          · exact ⟨key, by rw [h]; exact hk, hcond.1, hcond.2⟩
          · obtain ⟨k, hk', hne, hns⟩ := (ih (key :: seen)).1 c' h
            exact ⟨k, hk', hne, fun hs => hns (List.mem_cons_of_mem _ hs)⟩
        · rw [List.map_cons, List.nodup_cons]
          refine ⟨?_, (ih (key :: seen)).2⟩
          intro hmem
          obtain ⟨c', hc', hgd⟩ := List.mem_map.mp hmem
          obtain ⟨k, hk', _, hns⟩ := (ih (key :: seen)).1 c' hc'
          rw [hk'] at hgd
          simp only [Option.getD_some] at hgd
          rw [hfc] at hgd
          exact hns (by rw [hgd]; exact List.mem_cons_self _ _)
      · rw [if_neg hcond]
        exact ih seen

lemma string_append_left_cancel (s : String) :
    Function.Injective (fun t : String => s ++ t) := by
  intro a b h
  have hd : s.data ++ a.data = s.data ++ b.data := by
    have := congrArg String.data h
    simpa [String.data_append] using this
  cases a
  cases b
  exact congrArg String.mk (List.append_cancel_left hd)

/-- C2 counterexample: a trace whose observation lists a 0.5-scoring lecture
before a 0.9-scoring one yields citations in that parse order — the returned
list is not sorted in descending order of score. -/
theorem c2_counterexample :
    ((extract_citations
        [{ action := some "retrieve_documents", observation := unsortedObs }] ⟨0, 1⟩).map
      fun c => (c.id, c.score)) = [("doc_7", ⟨5, 10⟩), ("doc_8", ⟨9, 10⟩)]
    ∧ PyFloat.le ⟨9, 10⟩ ⟨5, 10⟩ = false := by
  constructor
  · decide
  · decide

/-- C2 (amended): for every reasoning chain and minimum score, every
returned citation's score clears the minimum, each document appears at most
once — the de-duplication key `lecture_id` and hence the citation id
`"doc_" ++ lecture_id` are pairwise distinct — and the returned list is a
sublist of the parsed citations in first-occurrence order (no re-sorting by
score takes place). -/
theorem c2_citation_dedup_filter (chain : List ChainStep) (ms : PyFloat) :
    ((extract_citations chain ms).all fun c => PyFloat.le ms c.score) = true
    ∧ ((extract_citations chain ms).map fun c => c.doc.lecture_id.getD "").Nodup
    ∧ ((extract_citations chain ms).map fun c => c.id).Nodup
    ∧ List.Sublist (extract_citations chain ms) (extractRaw ms chain) := by
  have hsub : List.Sublist (extract_citations chain ms) (extractRaw ms chain) :=
    dedupCitations_sublist (extractRaw ms chain) []
  have hraw : ∀ P : Citation → Prop,
      (∀ d : ParsedDoc, PyFloat.le ms d.getScore = true → P (mkCitation d)) →
      ∀ c ∈ extractRaw ms chain, P c := by
    intro P hP
    exact extractRaw_forall P ms hP chain [] (by simp)
  have hscore : ∀ c ∈ extract_citations chain ms, PyFloat.le ms c.score = true := by
    intro c hc
    exact hraw (fun c => PyFloat.le ms c.score = true) (fun d hd => hd) c
      (hsub.subset hc)
  have hid : ∀ c ∈ extract_citations chain ms,
      c.id = "doc_" ++ c.doc.lecture_id.getD "unknown" := by
    intro c hc
    exact hraw (fun c => c.id = "doc_" ++ c.doc.lecture_id.getD "unknown")
      (fun d _ => rfl) c (hsub.subset hc)
  have hkeys := (dedupCitations_spec (extractRaw ms chain) []).2
  refine ⟨?_, hkeys, ?_, hsub⟩
  · rw [List.all_eq_true]
    intro c hc
    simpa using hscore c hc
  · have hsomek := (dedupCitations_spec (extractRaw ms chain) []).1
    have hmap : ((extract_citations chain ms).map fun c => c.id)
        = ((extract_citations chain ms).map fun c => c.doc.lecture_id.getD "").map
            (fun k => "doc_" ++ k) := by
      rw [List.map_map]
      apply List.map_congr_left
      intro c hc
      obtain ⟨k, hk, _, _⟩ := hsomek c hc
      have := hid c hc
      simp only [Function.comp]
      rw [this, hk]
      simp
    rw [hmap]
    exact List.Nodup.map (string_append_left_cancel "doc_") hkeys

/-- C1: evaluated on the two mock documents of
scripts/verify_citation_linking.py, the shipped formatter emits no
`Source 1` label (the script asserts it does) and exposes `Lecture ID`
metadata (the script asserts it does not); and on an observation written in
the `Source {i}`-labelled format the spec describes, the shipped
`extract_citations` returns no citation at all — it never maps a `Source i`
label back to the i-th document. -/
theorem c1_stale_citation_pipeline :
    strContains (format_documents [docA, docB]) "Source 1" = false
    ∧ strContains (format_documents [docA, docB]) "Lecture ID" = true
    ∧ extract_citations
        [{ action := some "retrieve_documents", observation := sourceLabeledObs }]
        ⟨40, 100⟩ = []
    ∧ ((extract_citations
          [{ action := some "retrieve_documents",
             observation := format_documents [docA, docB] }] ⟨40, 100⟩).map fun c => c.id)
        = ["doc_101", "doc_103"]
    ∧ docA.id = "doc_1" ∧ docB.id = "doc_3" := by
  refine ⟨by decide, by decide, by decide, by decide, rfl, rfl⟩

/-- C3: for a retrieval returning documents scoring 0.9 and 0.3, the node's
own `>= 0.40` filter keeps only the 0.9 document and the turn's citation
list is built from it alone — but the shipped one-argument
`format_documents` (which the node calls with a `min_score` keyword it does
not accept) renders the 0.3 document's content into the observation text
given to the reasoning loop. -/
theorem c3_min_score_filter :
    retrieveNode_highScoreDocs [d09, d03] = [d09]
    ∧ retrieveNode_citations (retrieveNode_highScoreDocs [d09, d03])
        = [{ id := "doc_a", score := ⟨90, 100⟩, subject := none, topics := none,
             class_id := none, lecture_id := some "1", transcript_id := none,
             chunk_id := none }]
    ∧ strContains (format_documents [d09, d03]) "Low score content" = true
    ∧ strContains (format_documents [d09, d03]) "[Score: 0.30]" = true := by
  refine ⟨by decide, by decide, by decide, by decide⟩

lemma runFrom_spec (env : ReActEnv) (maxIter : Nat)
    (hT : ∀ ms, ∃ resp, env.llmWithTools ms = Except.ok resp)
    (hP : ∀ ms, ∃ content, env.llm ms = Except.ok content) :
    ∀ (remaining iteration : Nat) (messages : List Msg) (scratchpad : List ScratchStep)
      (tCalls : Nat),
      ∃ r, runFrom env maxIter remaining iteration messages scratchpad tCalls = .ok r
        ∧ r.toolLLMCalls ≤ tCalls + remaining
        ∧ r.plainLLMCalls ≤ 1
        ∧ (r.boundReached = false → r.plainLLMCalls = 0 ∧ r.iterations < iteration + remaining)
        ∧ (r.boundReached = true →
            r.iterations = maxIter ∧ r.toolLLMCalls = tCalls + remaining
            ∧ (hasObservations r.reasoning_chain = true →
                r.plainLLMCalls = 1 ∧ ∃ ms c, env.llm ms = Except.ok c ∧ r.answer = c)
            ∧ (hasObservations r.reasoning_chain = false →
                r.answer = FALLBACK_MESSAGE ∧ r.plainLLMCalls = 0)) := by
  intro remaining
  induction remaining with
  | zero =>
    intro iteration messages scratchpad tCalls
    simp only [runFrom]
    unfold finishAtBound
    by_cases hobs : hasObservations scratchpad = true
    · rw [if_pos hobs]
      obtain ⟨content, hcall⟩ := hP (messages ++ [.human SYNTHESIS_PROMPT])
      rw [hcall]
      refine ⟨_, rfl, by simp, by simp, by simp, fun _ => ⟨rfl, by simp, ?_, ?_⟩⟩
      · exact fun _ => ⟨rfl, _, content, hcall, rfl⟩
      · intro hne
        exact absurd hobs (by simp [hne])
    · rw [if_neg hobs]
      refine ⟨_, rfl, by simp, by simp, by simp, fun _ => ⟨rfl, by simp, ?_, fun _ => ⟨rfl, rfl⟩⟩⟩
      intro habs
      exact absurd habs hobs
  | succ n ih =>
    intro iteration messages scratchpad tCalls
    simp only [runFrom]
    obtain ⟨resp, hcall⟩ := hT messages
    rw [hcall]
    dsimp only
    by_cases hempty : resp.tool_calls.isEmpty = true
    · rw [if_pos hempty]
      refine ⟨_, rfl, by simp, by simp, fun _ => ⟨rfl, by simp⟩, ?_⟩
      intro habs
      simp at habs
    · rw [if_neg hempty]
      obtain ⟨r, hr, h1, h2, h3, h4⟩ := ih (iteration + 1) _ _ (tCalls + 1)
      refine ⟨r, hr, by omega, h2, ?_, ?_⟩
      · intro hb
        obtain ⟨hp, hi⟩ := h3 hb
        exact ⟨hp, by omega⟩
      · intro hb
        obtain ⟨hi, ht, ho1, ho2⟩ := h4 hb
        exact ⟨hi, by omega, ho1, ho2⟩

/-- C4 counterexample: with a tool that always returns the non-empty
observation `"NO_DOCS_FOUND for this query"` and a model that always
requests it, the loop reaches the default bound of five iterations having
collected non-empty observations, yet makes no synthesis call and returns
the fixed fallback message — the claim's "at least one non-empty
observation was collected" condition does not match the code's
`NO_DOCS_FOUND` test. -/
theorem c4_counterexample :
    (ReActAgent.run envNoDocs 5 [] []).toOption
        = some
            { answer := FALLBACK_MESSAGE,
              reasoning_chain := (List.range 5).map fun i =>
                { iteration := i + 1, thought := "Using tool...",
                  action := "retrieve_documents", action_input := "q",
                  observation := "NO_DOCS_FOUND for this query" },
              iterations := 5, toolLLMCalls := 5, plainLLMCalls := 0, boundReached := true }
    ∧ ("NO_DOCS_FOUND for this query" ≠ "") := by
  refine ⟨by decide, by decide⟩

/-- C4 (amended): whatever the tools do (and with any total LLM oracles),
the loop runs at most `maxIter` iterations, calling the tool-equipped LLM at
most `maxIter` times and the synthesis LLM at most once; when the bound is
reached without a final answer, then if a collected observation is non-empty
and free of the `NO_DOCS_FOUND` marker exactly one synthesis call is made
and its text returned, and otherwise the fixed fallback message is
returned. -/
theorem c4_iteration_bound (env : ReActEnv) (maxIter : Nat) (initMessages : List Msg)
    (prefilled : List PrefilledObs)
    (hT : ∀ ms, ∃ resp, env.llmWithTools ms = Except.ok resp)
    (hP : ∀ ms, ∃ content, env.llm ms = Except.ok content) :
    ∃ r, ReActAgent.run env maxIter initMessages prefilled = Except.ok r
      ∧ r.iterations ≤ maxIter
      ∧ r.toolLLMCalls ≤ maxIter
      ∧ r.plainLLMCalls ≤ 1
      ∧ (r.boundReached = false → r.plainLLMCalls = 0)
      ∧ (r.boundReached = true →
          r.iterations = maxIter ∧ r.toolLLMCalls = maxIter
          ∧ (hasObservations r.reasoning_chain = true →
              r.plainLLMCalls = 1 ∧ ∃ ms c, env.llm ms = Except.ok c ∧ r.answer = c)
          ∧ (hasObservations r.reasoning_chain = false →
              r.answer = FALLBACK_MESSAGE ∧ r.plainLLMCalls = 0)) := by
  obtain ⟨r, hr, h1, h2, h3, h4⟩ := runFrom_spec env maxIter hT hP maxIter 1 _ _ 0
  refine ⟨r, ?_, ?_, by omega, h2, fun hb => (h3 hb).1, ?_⟩
  · unfold ReActAgent.run
    exact hr
  · cases hb : r.boundReached with
    | false => have := (h3 hb).2; omega
    | true => rw [(h4 hb).1]
  · intro hb
    obtain ⟨hi, ht, ho1, ho2⟩ := h4 hb
    exact ⟨hi, by omega, ho1, ho2⟩

/-- C4 witness: a model that answers directly satisfies the bound at the
default five iterations. -/
theorem c4_iteration_bound_witness :
    ∃ r, ReActAgent.run envOk 5 [] [] = Except.ok r
      ∧ r.iterations ≤ 5
      ∧ r.toolLLMCalls ≤ 5
      ∧ r.plainLLMCalls ≤ 1
      ∧ (r.boundReached = false → r.plainLLMCalls = 0)
      ∧ (r.boundReached = true →
          r.iterations = 5 ∧ r.toolLLMCalls = 5
          ∧ (hasObservations r.reasoning_chain = true →
              r.plainLLMCalls = 1 ∧ ∃ ms c, envOk.llm ms = Except.ok c ∧ r.answer = c)
          ∧ (hasObservations r.reasoning_chain = false →
              r.answer = FALLBACK_MESSAGE ∧ r.plainLLMCalls = 0)) :=
  c4_iteration_bound envOk 5 [] [] (fun _ => ⟨_, rfl⟩) (fun _ => ⟨_, rfl⟩)

lemma runFrom_chain_forall (env : ReActEnv) (maxIter : Nat) (P : ScratchStep → Prop)
    (hnew : ∀ (iteration : Nat) (tcs : List ToolCall) (tc : ToolCall), tc ∈ tcs →
        P { iteration := iteration, thought := "Using tool...", action := tc.name,
            action_input := env.prepArgs tc.name tc.args,
            observation := toolObservation env (tcs.any fun t => t.name == "retrieve_documents") tc }) :
    ∀ (remaining iteration : Nat) (messages : List Msg) (scratchpad : List ScratchStep)
      (tCalls : Nat) (r : RunResult),
      (∀ s ∈ scratchpad, P s) →
      runFrom env maxIter remaining iteration messages scratchpad tCalls = .ok r →
      ∀ s ∈ r.reasoning_chain, P s := by
  intro remaining
  induction remaining with
  | zero =>
    intro it msgs sp t r hsp hrun
    simp only [runFrom] at hrun
    unfold finishAtBound at hrun
    by_cases hobs : hasObservations sp = true
    · rw [if_pos hobs] at hrun
      cases hc : env.llm (msgs ++ [.human SYNTHESIS_PROMPT]) with
      | error e => rw [hc] at hrun; simp at hrun
      | ok content =>
        rw [hc] at hrun
        simp only [Except.ok.injEq] at hrun
        rw [← hrun]
        exact hsp
    · rw [if_neg hobs] at hrun
      simp only [Except.ok.injEq] at hrun
      rw [← hrun]
      exact hsp
  | succ n ih =>
    intro it msgs sp t r hsp hrun
    simp only [runFrom] at hrun
    cases hc : env.llmWithTools msgs with
    | error e => rw [hc] at hrun; simp at hrun
    | ok resp =>
      rw [hc] at hrun
      dsimp only at hrun
      by_cases hempty : resp.tool_calls.isEmpty = true
      · rw [if_pos hempty] at hrun
        simp only [Except.ok.injEq] at hrun
        rw [← hrun]
        exact hsp
      · rw [if_neg hempty] at hrun
        refine ih (it + 1) _ _ (t + 1) r ?_ hrun
        intro s hs
        rcases List.mem_append.mp hs with h | h
        · exact hsp s h
        · rw [List.map_map] at h
          obtain ⟨tc, htc, hstep⟩ := List.mem_map.mp h
          rw [← hstep]
          exact hnew it resp.tool_calls tc htc

/-- C5: tool-level and LLM-level failures behave differently.  First, with
total LLM oracles the loop always returns a result, whatever the tools do —
tool behaviour (including always raising) never aborts it.  Second, when
every tool call raises, every scratchpad observation is exactly
`"Error: <message>"` for that call.  Third, an LLM invocation error is not
caught: `run` propagates it, and the calling agent's handler substitutes the
fixed fallback message with a zero LLM-call counter and an empty citation
list. -/
theorem c5_error_handling :
    (∀ (env : ReActEnv) (maxIter : Nat) (initMessages : List Msg)
        (prefilled : List PrefilledObs),
        (∀ ms, ∃ resp, env.llmWithTools ms = Except.ok resp) →
        (∀ ms, ∃ content, env.llm ms = Except.ok content) →
        ∃ r, ReActAgent.run env maxIter initMessages prefilled = Except.ok r)
    ∧ (∀ (llmT : List Msg → Except String LLMResponse)
          (llmP : List Msg → Except String String) (prep : String → String → String)
          (errf : String → String → String) (maxIter : Nat) (initMessages : List Msg)
          (r : RunResult),
        ReActAgent.run
            { llmWithTools := llmT, llm := llmP,
              tools := fun n a => Except.error (errf n a),
              prepArgs := prep, enforceSequential := false }
            maxIter initMessages [] = Except.ok r →
        ∀ s ∈ r.reasoning_chain, s.observation = "Error: " ++ errf s.action s.action_input)
    ∧ (∀ (env : ReActEnv) (maxIter : Nat) (initMessages : List Msg) (e : String),
        1 ≤ maxIter → env.llmWithTools initMessages = Except.error e →
        ReActAgent.run env maxIter initMessages [] = Except.error e
        ∧ ∀ f, studentAgentHandle (ReActAgent.run env maxIter initMessages []) f
            = { response := FALLBACK_MESSAGE, llm_calls := 0, citations := [] }) := by
  refine ⟨?_, ?_, ?_⟩
  · intro env maxIter initMessages prefilled hT hP
    obtain ⟨r, hr, -⟩ := runFrom_spec env maxIter hT hP maxIter 1 _ _ 0
    exact ⟨r, by unfold ReActAgent.run; exact hr⟩
  · intro llmT llmP prep errf maxIter initMessages r hrun s hs
    have hrun' : runFrom
        { llmWithTools := llmT, llm := llmP, tools := fun n a => Except.error (errf n a),
          prepArgs := prep, enforceSequential := false }
        maxIter maxIter 1 initMessages [] 0 = .ok r := by
      simpa [ReActAgent.run, prefilledScratch] using hrun
    refine runFrom_chain_forall _ maxIter
      (fun s => s.observation = "Error: " ++ errf s.action s.action_input)
      ?_ maxIter 1 initMessages [] 0 r (by simp) hrun' s hs
    intro iteration tcs tc _
    simp [toolObservation, execTool]
  · intro env maxIter initMessages e hmi herr
    cases maxIter with
    | zero => exact absurd hmi (by omega)
    | succ m =>
      have hrun : ReActAgent.run env (m + 1) initMessages [] = Except.error e := by
        unfold ReActAgent.run
        simp only [prefilledScratch, List.map_nil, List.isEmpty_nil, if_true]
        simp only [runFrom]
        rw [herr]
      exact ⟨hrun, fun f => by rw [hrun]; rfl⟩

/-- C5 witness: a first-call LLM failure propagates out of the loop and the
agent handler substitutes the fallback outcome. -/
theorem c5_error_handling_witness :
    ReActAgent.run envLLMErr 5 [] [] = Except.error "boom"
    ∧ studentAgentHandle (ReActAgent.run envLLMErr 5 [] [])
        (fun r => { response := r.answer, llm_calls := r.iterations, citations := [] })
        = { response := FALLBACK_MESSAGE, llm_calls := 0, citations := [] } := by
  have h := c5_error_handling.2.2 envLLMErr 5 [] "boom" (by omega) rfl
  exact ⟨h.1, h.2 _⟩

end VidyaAI
